import Mathlib

/-!
# Skill Swap front end (`app/static/js/main.js`)

A shallow embedding of the parts of `main.js` that the specification talks
about: the two counter refreshers, the notification presenter with its
five-second timers, the platform broadcast handler, the socket event
handlers, `validateEmail` and `truncateText`.

Conventions of the embedding.

* The page is an explicit state record `Page`; every JavaScript function
  that touches the DOM or a global becomes a function `Page → Page`.
* `fetch(...).then(...).then(...).catch(...)` is split in two: the call,
  which only records the request, and the completion, which receives the
  outcome of the request and runs either the success or the failure callback.
* `setTimeout` registers a timer with a deadline on a logical millisecond
  clock; `advance` moves the clock and runs the callbacks that are due.
* Strings that are measured or matched character by character
  (`truncateText`, `validateEmail`) are lists of UTF-16 code units, which is
  what `length`, `substring` and a regular expression without the `u` flag
  work on. Markup that is only concatenated is a Lean `String`.
* A count is an integer Number, given by the integer it stands for; the text it
  becomes when assigned to `textContent` is ECMAScript's Number-to-String,
  `numberToString`, which is the decimal numeral only below `2 ^ 53`.
-/

namespace SkillSwap

set_option maxRecDepth 100000

/-! ## JavaScript strings and `truncateText` -/

/-- A JavaScript string, as its sequence of UTF-16 code units. -/
abbrev JSString := List Nat

/-- The literal `'...'`. -/
def ellipsis : JSString := [46, 46, 46]

/-- The call `text.substring(0, n)` for an integer `n`: a negative end index
is clamped to `0`, one beyond the length to the length. -/
def substring0 (text : JSString) (n : Int) : JSString :=
  text.take n.toNat

/-- Source `truncateText(text, maxLength)`, lines 517-520. -/
def truncateText (text : JSString) (maxLength : Int) : JSString :=
  if (text.length : Int) ≤ maxLength then text
  else substring0 text maxLength ++ ellipsis

/-! ## Numbers and their conversion to text

A JavaScript Number is a double. The counters only meet integer values, so a
Number is given here by the integer it stands for; the integers that are
Numbers are those `nearestDouble` leaves alone. -/

/-- Number of binary digits of `n`, with `fuel` steps at most. -/
def bitLengthAux : Nat → Nat → Nat
  | 0, _ => 0
  | fuel + 1, n => if n = 0 then 0 else bitLengthAux fuel (n / 2) + 1

/-- Number of binary digits of `n`. -/
def bitLength (n : Nat) : Nat := bitLengthAux n n

/-- The double nearest to the natural number `n`: `n` is kept to 53
significant binary digits, rounding to nearest and a tie to the even
significand; `none` when the result is beyond the largest finite double, where
the Number is `Infinity`. Every `n` below `2 ^ 53` is a double itself. -/
def nearestDouble (n : Nat) : Option Nat :=
  if n < 2 ^ 53 then some n
  else
    let e := bitLength n - 53
    let q := n / 2 ^ e
    let r := n % 2 ^ e
    let m := if 2 ^ e < 2 * r ∨ (2 * r = 2 ^ e ∧ q % 2 = 1) then q + 1 else q
    if bitLength (m * 2 ^ e) ≤ 1024 then some (m * 2 ^ e) else none

/-- Number of decimal digits of `x`. -/
def decimalLength (x : Nat) : Nat := (Nat.toDigits 10 x).length

/-- Distance between two natural numbers. -/
def distance (a b : Nat) : Nat := (a - b) + (b - a)

/-- The pairs `(s, n)` of ECMAScript's Number-to-String for a given digit count
`k`: `s` has `k` decimal digits and `s * 10 ^ (n - k)` is a numeral of the
double `x` (it rounds to `x`). For an integer double of at least 16 digits
such a numeral has as many digits as `x` or one more, and `s` is the quotient
of `x` by `10 ^ (n - k)` or its successor. -/
def candidates (x k : Nat) : List (Nat × Nat) :=
  [decimalLength x, decimalLength x + 1].flatMap (fun n =>
    if n < k then []
    else
      ([x / 10 ^ (n - k), x / 10 ^ (n - k) + 1].filter (fun s =>
        decide (10 ^ (k - 1) ≤ s) && decide (s < 10 ^ k) &&
          nearestDouble (s * 10 ^ (n - k)) == some x)).map (fun s => (s, n)))

/-- Of two candidates for the same `k`, the one whose numeral is closer to
`x`; at equal distance the one with the even `s`. -/
def closer (x k : Nat) (a b : Nat × Nat) : Nat × Nat :=
  if distance (b.1 * 10 ^ (b.2 - k)) x < distance (a.1 * 10 ^ (a.2 - k)) x ∨
      (distance (b.1 * 10 ^ (b.2 - k)) x = distance (a.1 * 10 ^ (a.2 - k)) x ∧
        b.1 % 2 = 0 ∧ a.1 % 2 = 1) then b
  else a

/-- The triple `(s, k, n)` of Number-to-String, searched from digit count `k`
upwards: the least `k` that has a candidate, and for it the closest one. -/
def shortestAux (x : Nat) : Nat → Nat → Nat × Nat × Nat
  | 0, k => (x, k, decimalLength x)
  | fuel + 1, k =>
    match candidates x k with
    | [] => shortestAux x fuel (k + 1)
    | c :: cs => ((cs.foldl (closer x k) c).1, k, (cs.foldl (closer x k) c).2)

/-- The triple `(s, k, n)` of Number-to-String for the double `x`; seventeen
digits always suffice. -/
def shortest (x : Nat) : Nat × Nat × Nat := shortestAux x 17 1

/-- ECMAScript's Number-to-String (radix 10) on a non-negative integer double
`x`. Below `2 ^ 53` the only numeral of `x` is `x` itself and the result is its
decimal numeral. From there on the result is built from the shortest numeral
`s * 10 ^ (n - k)` of `x`: for `n ≤ 21` the digits of `s` followed by `n - k`
zeros, otherwise exponent notation. -/
def natNumberToString (x : Nat) : String :=
  if x < 2 ^ 53 then toString x
  else
    match shortest x with
    | (s, k, n) =>
      if n ≤ 21 then toString s ++ String.mk (List.replicate (n - k) '0')
      else if k = 1 then toString s ++ "e+" ++ toString (n - 1)
      else String.mk ((toString s).toList.take 1) ++ "." ++
        String.mk ((toString s).toList.drop 1) ++ "e+" ++ toString (n - 1)

/-- The text a DOM string property gets when an integer Number is assigned to
it (`textContent = count`): Number-to-String of the Number. An integer that is
not a double is first taken to the nearest one, as parsing its numeral does. -/
def numberToString (n : Int) : String :=
  match nearestDouble n.natAbs with
  | none => if n < 0 then "-Infinity" else "Infinity"
  | some x => if n < 0 then "-" ++ natNumberToString x else natNumberToString x

/-! ## Regular expressions and `validateEmail` -/

/-- Regular expressions over code units, with character classes given by a
predicate. -/
inductive Rx where
  | nothing : Rx
  | empty : Rx
  | cls (p : Nat → Bool) : Rx
  | alt (r s : Rx) : Rx
  | seq (r s : Rx) : Rx
  | star (r : Rx) : Rx

namespace Rx

/-- The quantifier `+`: one or more repetitions. -/
def plus (r : Rx) : Rx := seq r (star r)

/-- Whether the expression accepts the empty string. -/
def nullable : Rx → Bool
  | nothing => false
  | empty => true
  | cls _ => false
  | alt r s => r.nullable || s.nullable
  | seq r s => r.nullable && s.nullable
  | star _ => true

/-- The derivative of an expression by one code unit. -/
def deriv : Rx → Nat → Rx
  | nothing, _ => nothing
  | empty, _ => nothing
  | cls p, a => if p a then empty else nothing
  | alt r s, a => alt (r.deriv a) (s.deriv a)
  | seq r s, a =>
    if r.nullable then alt (seq (r.deriv a) s) (s.deriv a) else seq (r.deriv a) s
  | star r, a => seq (r.deriv a) (star r)

/-- The call `regex.test(str)` for an expression anchored with `^` and `$`
(no `m` flag): the whole string has to match. -/
def test (r : Rx) (w : JSString) : Bool :=
  (w.foldl deriv r).nullable

/-- The strings an expression denotes. -/
def Matches : Rx → JSString → Prop
  | nothing, _ => False
  | empty, w => w = []
  | cls p, w => ∃ a, p a = true ∧ w = [a]
  | alt r s, w => r.Matches w ∨ s.Matches w
  | seq r s, w => ∃ u v, w = u ++ v ∧ r.Matches u ∧ s.Matches v
  | star r, w => ∃ L : List JSString, w = L.flatten ∧ ∀ u ∈ L, r.Matches u

end Rx

/-- The class `\s` of ECMAScript: white space and line terminators. -/
def isWhiteSpace (c : Nat) : Bool :=
  c == 0x09 || c == 0x0A || c == 0x0B || c == 0x0C || c == 0x0D || c == 0x20 ||
  c == 0xA0 || c == 0x1680 || (0x2000 ≤ c && c ≤ 0x200A) || c == 0x2028 ||
  c == 0x2029 || c == 0x202F || c == 0x205F || c == 0x3000 || c == 0xFEFF

/-- Code unit of `@`. -/
def atSign : Nat := 64

/-- Code unit of `.`. -/
def dot : Nat := 46

/-- The class `[^\s@]`. -/
def notSpaceAt (c : Nat) : Bool := !isWhiteSpace c && c != atSign

/-- Source line 103: `/^[^\s@]+@[^\s@]+\.[^\s@]+$/`. -/
def emailRegex : Rx :=
  Rx.seq (Rx.plus (Rx.cls notSpaceAt))
    (Rx.seq (Rx.cls (fun c => c == atSign))
      (Rx.seq (Rx.plus (Rx.cls notSpaceAt))
        (Rx.seq (Rx.cls (fun c => c == dot))
          (Rx.plus (Rx.cls notSpaceAt)))))

/-- A form input, as far as the validators touch it: its class list. -/
structure InputElement where
  classList : List String
  deriving DecidableEq

/-- The call `classList.remove(c)`. -/
def classListRemove (c : String) (el : InputElement) : InputElement :=
  { el with classList := el.classList.filter (fun x => x != c) }

/-- The call `classList.add(c)`: a class already present is not added again. -/
def classListAdd (c : String) (el : InputElement) : InputElement :=
  if c ∈ el.classList then el else { el with classList := el.classList ++ [c] }

/-- Source `validateEmail(email, inputElement)`, lines 102-117. The result is
the returned boolean together with the input element after the call (`none`
when no element was passed). -/
def validateEmail (email : JSString) (inputElement : Option InputElement) :
    Bool × Option InputElement :=
  let isValid := emailRegex.test email
  match inputElement with
  | some el =>
    if isValid then
      (isValid, some (classListAdd "is-valid" (classListRemove "is-invalid" el)))
    else
      (isValid, some (classListAdd "is-invalid" (classListRemove "is-valid" el)))
  | none => (isValid, none)

/-- The part of a string before its first `@`. -/
def localPart (s : JSString) : JSString := s.takeWhile (fun c => c != atSign)

/-- The part of a string after its first `@`. -/
def domainPart (s : JSString) : JSString := (s.dropWhile (fun c => c != atSign)).drop 1

/-- The shape of an accepted address in words: no white space, exactly one
`@`, something before it, and after it a `.` that is neither the first nor the
last character of that part. -/
def EmailShape (s : JSString) : Prop :=
  (∀ c ∈ s, isWhiteSpace c = false) ∧
  s.count atSign = 1 ∧
  0 < (localPart s).length ∧
  ∃ i, 0 < i ∧ i + 1 < (domainPart s).length ∧ (domainPart s)[i]? = some dot

/-! ## The page -/

/-- A counter element (`#pending-count`, `#active-count`): its text and its
inline `style.display`. -/
structure Element where
  textContent : String
  display : String
  deriving DecidableEq

/-- A child of `document.body`. `id` is the identity of the node, the other
fields are the properties `showNotification` sets. -/
structure Node where
  id : Nat
  className : String
  top : String
  right : String
  zIndex : String
  innerHTML : String
  deriving DecidableEq

/-- A pending `setTimeout` callback of `showNotification`: when the clock
reaches `deadline` it removes the node `target` if that is still attached. -/
structure Timer where
  deadline : Nat
  target : Nat
  deriving DecidableEq

/-- The state of the page. `document.body` is present: the handlers are
installed from `DOMContentLoaded`. The counter elements and the flash
container may be missing from a page, which the code tests for. -/
structure Page where
  /-- logical clock, in milliseconds -/
  now : Nat
  /-- identity given to the next created node -/
  nextId : Nat
  /-- the global `pendingCount` -/
  pendingCount : Int
  /-- the element `document.getElementById('pending-count')` -/
  pendingElem : Option Element
  /-- the element `document.getElementById('active-count')` -/
  activeElem : Option Element
  /-- children of `document.body`, in document order -/
  body : List Node
  /-- pending timers, in the order they were set -/
  timers : List Timer
  /-- children of `document.querySelector('.container.mt-3')`, first child
  first, each given by its markup -/
  flashContainer : Option (List String)
  /-- URLs of the `fetch` calls issued so far, oldest first -/
  fetches : List String
  /-- lines written to the console, oldest first -/
  console : List String
  deriving DecidableEq

/-- The page when the script starts: `let pendingCount = 0`, nothing issued,
no timer set. -/
def Page.initial (pendingElem activeElem : Option Element)
    (flashContainer : Option (List String)) : Page :=
  { now := 0, nextId := 0, pendingCount := 0, pendingElem := pendingElem,
    activeElem := activeElem, body := [], timers := [],
    flashContainer := flashContainer, fetches := [], console := [] }

/-! ## Counter refresh -/

/-- How a `fetch(url).then(response => response.json())` chain ends:
the fetch rejects, the body cannot be read as JSON, or the body is read as an
object `data` whose `data.count` is the given integer Number. -/
inductive FetchOutcome where
  | rejected : FetchOutcome
  | unreadable : FetchOutcome
  | json (count : Int) : FetchOutcome
  deriving DecidableEq

/-- Source `updatePendingCount()`, line 217: the call itself only issues the
request. -/
def updatePendingCount (s : Page) : Page :=
  { s with fetches := s.fetches ++ ["/api/swaps/pending-count"] }

/-- Source lines 219-230: the `.then(data => ...)` callback of
`updatePendingCount`. -/
def pendingCountSuccess (count : Int) (s : Page) : Page :=
  match s.pendingElem with
  | some countElement =>
    if count > 0 then
      { s with
        pendingCount := count
        pendingElem := some { countElement with
          textContent := numberToString count, display := "inline" } }
    else
      { s with
        pendingCount := count
        pendingElem := some { countElement with display := "none" } }
  | none => s

/-- Source lines 231-233: the `.catch` callback of `updatePendingCount`. -/
def pendingCountFailure (s : Page) : Page :=
  { s with console := s.console ++ ["Error updating pending count:"] }

/-- Completion of a pending-count request. -/
def pendingCountDone (o : FetchOutcome) (s : Page) : Page :=
  match o with
  | FetchOutcome.json count => pendingCountSuccess count s
  | FetchOutcome.rejected => pendingCountFailure s
  | FetchOutcome.unreadable => pendingCountFailure s

/-- Source `updateActiveCount()`, line 238: the call itself only issues the
request. -/
def updateActiveCount (s : Page) : Page :=
  { s with fetches := s.fetches ++ ["/api/swaps/active-count"] }

/-- Source lines 240-245: the `.then(data => ...)` callback of
`updateActiveCount`. -/
def activeCountSuccess (count : Int) (s : Page) : Page :=
  match s.activeElem with
  | some countElement =>
    { s with activeElem := some { countElement with textContent := numberToString count } }
  | none => s

/-- Source lines 246-248: the `.catch` callback of `updateActiveCount`. -/
def activeCountFailure (s : Page) : Page :=
  { s with console := s.console ++ ["Error updating active count:"] }

/-- Completion of an active-count request. -/
def activeCountDone (o : FetchOutcome) (s : Page) : Page :=
  match o with
  | FetchOutcome.json count => activeCountSuccess count s
  | FetchOutcome.rejected => activeCountFailure s
  | FetchOutcome.unreadable => activeCountFailure s

/-- The successful responses `rs` of the pending counter, applied in the order
in which they complete. -/
def applyPending (rs : List Int) (s : Page) : Page :=
  rs.foldl (fun st count => pendingCountDone (FetchOutcome.json count) st) s

/-- The successful responses `rs` of the active counter, applied in the order
in which they complete. -/
def applyActive (rs : List Int) (s : Page) : Page :=
  rs.foldl (fun st count => activeCountDone (FetchOutcome.json count) st) s

/-- What a counter element shows: nothing when its `display` is `none`,
otherwise its text. -/
def Element.shown (e : Element) : Option String :=
  if e.display = "none" then none else some e.textContent

/-! ## Notifications -/

/-- The severities the specification enumerates. -/
def severities : List String := ["info", "success", "warning", "danger"]

/-- The `className` that `showNotification` gives the alert for the string
`type` (line 470). -/
def alertClassName (type : String) : String :=
  "alert alert-" ++ type ++ " alert-dismissible fade show position-fixed"

/-- Source lines 469-477: the alert element built by `showNotification` for
the string `type`; `id` is the identity of the new node. -/
def createAlert (message : String) (type : String) (id : Nat) : Node :=
  { id := id
    className := alertClassName type
    top := "20px"
    right := "20px"
    zIndex := "9999"
    innerHTML := "\n        " ++ message ++
      "\n        <button type=\"button\" class=\"btn-close\" data-bs-dismiss=\"alert\"></button>\n    " }

/-- Source `showNotification(message, type = 'info')`, lines 468-487. The
parameter `type` is `none` when the argument is omitted (or `undefined`), in
which case the default `'info'` is used; any string passed is used as it is.
The call creates the alert, appends it to `document.body` and sets the
five-second timer. -/
def showNotification (message : String) (type : Option String) (s : Page) : Page :=
  let alertDiv := createAlert message (type.getD "info") s.nextId
  { s with
    nextId := s.nextId + 1
    body := s.body ++ [alertDiv]
    timers := s.timers ++ [{ deadline := s.now + 5000, target := alertDiv.id }] }

/-- Source lines 482-486, the timer callback: `if (alertDiv.parentNode)
alertDiv.remove()`. A node that is no longer attached is left alone. -/
def fireTimer (s : Page) (t : Timer) : Page :=
  { s with body := s.body.filter (fun n => n.id != t.target) }

/-- The clock reaches `t`: every timer whose deadline has been reached runs,
in the order the timers were set, and is discarded. -/
def advance (t : Nat) (s : Page) : Page :=
  let due := s.timers.filter (fun tm => tm.deadline ≤ t)
  let s1 := due.foldl fireTimer s
  { s1 with now := max s.now t, timers := s.timers.filter (fun tm => t < tm.deadline) }

/-- One call of `showNotification` made at a given time. -/
structure NotifyCall where
  time : Nat
  message : String
  type : Option String
  deriving DecidableEq

/-- The calls of a list are made one after the other, each at its time. -/
def runCalls : List NotifyCall → Page → Page
  | [], s => s
  | c :: cs, s => runCalls cs (showNotification c.message c.type (advance c.time s))

/-- The link between a page and the calls of `showNotification` made on it so
far: `base` are the children the body had before the first call, all with an
identity below `lo`; `done` are the times of the calls, oldest first. The body
is `base` followed by one alert for every pending timer, in the same order,
and the pending timers are those of the calls less than five seconds old. -/
structure NotifyInv (base : List Node) (lo : Nat) (s : Page) (done : List Nat) : Prop where
  body_eq : ∃ alerts : List Node,
    s.body = base ++ alerts ∧ alerts.map Node.id = s.timers.map Timer.target
  base_lt : ∀ n ∈ base, n.id < lo
  target_ge : ∀ tm ∈ s.timers, lo ≤ tm.target
  target_lt : ∀ tm ∈ s.timers, tm.target < s.nextId
  lo_le : lo ≤ s.nextId
  target_nodup : (s.timers.map Timer.target).Nodup
  deadlines : s.timers.map Timer.deadline =
    (done.filter (fun t => s.now < t + 5000)).map (fun t => t + 5000)
  done_le : ∀ t ∈ done, t ≤ s.now

/-- ASCII white space, which separates the names of a `class` attribute: tab,
line feed, form feed, carriage return and space. -/
def isAsciiSpace (c : Char) : Bool :=
  c.toNat == 9 || c.toNat == 10 || c.toNat == 12 || c.toNat == 13 || c.toNat == 32

/-- The class names of a `className` attribute: its maximal runs of characters
other than ASCII white space. -/
def classNames (className : String) : List String :=
  ((className.toList.splitOnP isAsciiSpace).filter (fun w => w != [])).map String.mk

/-! ## Platform broadcasts -/

/-- The payload of a `platform_message` event. -/
structure PlatformMessage where
  type : String
  title : String
  message : String
  timestamp : String
  deriving DecidableEq

/-- Source lines 544-555: the markup of one broadcast. The locale-dependent
`new Date(data.timestamp).toLocaleString()` is the parameter `toLocaleString`. -/
def alertHtml (toLocaleString : String → String) (data : PlatformMessage) : String :=
  "\n        <div class=\"alert alert-" ++ data.type ++
    " alert-dismissible fade show\" role=\"alert\">" ++
  "\n            <div class=\"d-flex align-items-center\">" ++
  "\n                <div class=\"flex-grow-1\">" ++
  "\n                    <h6 class=\"alert-heading mb-1\">" ++ data.title ++ "</h6>" ++
  "\n                    <p class=\"mb-0\">" ++ data.message ++ "</p>" ++
  "\n                    <small class=\"text-muted\">Platform Message â€¢ " ++
    toLocaleString data.timestamp ++ "</small>" ++
  "\n                </div>" ++
  "\n                <button type=\"button\" class=\"btn-close\" data-bs-dismiss=\"alert\"></button>" ++
  "\n            </div>" ++
  "\n        </div>" ++
  "\n    "

/-- The call `container.insertAdjacentHTML('afterbegin', html)`: the markup
becomes the first child of the container. -/
def insertAfterBegin (html : String) (children : List String) : List String :=
  html :: children

/-- Source `showPlatformMessage(data)`, lines 543-562. -/
def showPlatformMessage (toLocaleString : String → String) (data : PlatformMessage)
    (s : Page) : Page :=
  match s.flashContainer with
  | some flashContainer =>
    { s with flashContainer := some (insertAfterBegin (alertHtml toLocaleString data) flashContainer) }
  | none => s

/-- The broadcasts `msgs` are shown one after the other, in the order of
arrival. -/
def showPlatformMessages (toLocaleString : String → String) (msgs : List PlatformMessage)
    (s : Page) : Page :=
  msgs.foldl (fun st data => showPlatformMessage toLocaleString data st) s

/-! ## Socket events -/

/-- The events a handler is registered for in `setupSocketIO` (lines 27-60),
and any other event name, for which there is none. -/
inductive SocketEvent where
  | connect : SocketEvent
  | new_swap_request : SocketEvent
  | swap_accepted : SocketEvent
  | swap_rejected : SocketEvent
  | swap_completed : SocketEvent
  | disconnect : SocketEvent
  | other (name : String) : SocketEvent
  deriving DecidableEq

/-- The handlers registered in lines 29-59, run on one received event. The
payload of the event is not used by any of them. -/
def onSocketEvent (e : SocketEvent) (s : Page) : Page :=
  match e with
  | SocketEvent.connect => { s with console := s.console ++ ["Connected to server"] }
  | SocketEvent.new_swap_request =>
    updatePendingCount (showNotification "New swap request received!" (some "info") s)
  | SocketEvent.swap_accepted =>
    updatePendingCount (showNotification "Your swap request has been accepted!" (some "success") s)
  | SocketEvent.swap_rejected =>
    updatePendingCount (showNotification "Your swap request has been rejected." (some "warning") s)
  | SocketEvent.swap_completed => showNotification "Swap marked as completed!" (some "success") s
  | SocketEvent.disconnect => { s with console := s.console ++ ["Disconnected from server"] }
  | SocketEvent.other _ => s

/-- The events that trigger a refresh of the pending counter. -/
def SocketEvent.isReactiveTrigger (e : SocketEvent) : Bool :=
  match e with
  | SocketEvent.new_swap_request => true
  | SocketEvent.swap_accepted => true
  | SocketEvent.swap_rejected => true
  | _ => false

/-! ## Counter refresh: what a completion does -/

theorem nearestDouble_of_lt (N : Nat) (h : N < 2 ^ 53) : nearestDouble N = some N := by
  unfold nearestDouble
  rw [if_pos h]

theorem numberToString_of_number (N : Nat) (h : nearestDouble N = some N) :
    numberToString (N : Int) = natNumberToString N := by
  have hneg : ¬ ((N : Int) < 0) := by omega
  unfold numberToString
  rw [Int.natAbs_ofNat, h]
  simp only [hneg, if_false]

theorem natNumberToString_of_lt (N : Nat) (h : N < 2 ^ 53) :
    natNumberToString N = toString N := by
  unfold natNumberToString
  rw [if_pos h]

theorem pendingCountSuccess_elem (count : Int) (s : Page) :
    (pendingCountSuccess count s).pendingElem =
      s.pendingElem.map (fun el =>
        if count > 0 then { el with textContent := numberToString count, display := "inline" }
        else { el with display := "none" }) := by
  unfold pendingCountSuccess
  cases h : s.pendingElem with
  | none => simp [h]
  | some el => by_cases hc : count > 0 <;> simp [hc]

theorem pendingCountSuccess_shown (count : Int) (s : Page) :
    (pendingCountSuccess count s).pendingElem.map Element.shown =
      s.pendingElem.map (fun _ => if count > 0 then some (numberToString count) else none) := by
  rw [pendingCountSuccess_elem]
  cases s.pendingElem with
  | none => rfl
  | some el => by_cases hc : count > 0 <;> simp [hc, Element.shown]

theorem activeCountSuccess_elem (count : Int) (s : Page) :
    (activeCountSuccess count s).activeElem =
      s.activeElem.map (fun el => { el with textContent := numberToString count }) := by
  unfold activeCountSuccess
  cases h : s.activeElem with
  | none => simp [h]
  | some el => simp

/-- C1, as stated, fails: `2 ^ 63` and `10 ^ 21` are Numbers, and for the
responses `{count: 9223372036854775808}` and `{count: 1e21}` the success
callback of `updatePendingCount` sets the text of the element to
`9223372036854776000` and to `1e+21`, neither of which is the numeral of the
count. -/
theorem pendingCount_text_not_numeral :
    nearestDouble 9223372036854775808 = some 9223372036854775808 ∧
    (pendingCountDone (FetchOutcome.json 9223372036854775808)
        (Page.initial (some ⟨"", ""⟩) none none)).pendingElem =
      some ⟨"9223372036854776000", "inline"⟩ ∧
    toString (9223372036854775808 : Nat) ≠ "9223372036854776000" ∧
    nearestDouble 1000000000000000000000 = some 1000000000000000000000 ∧
    (pendingCountDone (FetchOutcome.json 1000000000000000000000)
        (Page.initial (some ⟨"", ""⟩) none none)).pendingElem = some ⟨"1e+21", "inline"⟩ ∧
    toString (1000000000000000000000 : Nat) ≠ "1e+21" := by
  decide

/-- C1, amended: with the `pending-count` element present, for a response
`{count: N}` whose `N` is a natural number that is a Number (a double stands
for it exactly, as for every `N` below `2 ^ 53`), the success callback of
`updatePendingCount` stores `N` in `pendingCount`; for `N = 0` it sets the
element's display to `none` and leaves its text alone; for `N > 0` it sets the
display to `inline` and the text to Number-to-String of `N`, which is the
decimal numeral of `N` when `N` is below `2 ^ 53`. -/
theorem pendingCount_success_renders (s : Page) (el : Element) (N : Nat)
    (hel : s.pendingElem = some el) (hnum : nearestDouble N = some N) :
    (pendingCountDone (FetchOutcome.json N) s).pendingCount = N ∧
    (N = 0 → (pendingCountDone (FetchOutcome.json N) s).pendingElem =
      some { textContent := el.textContent, display := "none" }) ∧
    (0 < N → (pendingCountDone (FetchOutcome.json N) s).pendingElem =
      some { textContent := natNumberToString N, display := "inline" }) ∧
    (N < 2 ^ 53 → natNumberToString N = toString N) ∧
    (∀ M : Nat, M < 2 ^ 53 → nearestDouble M = some M) := by
  have hpos : ((N : Int) > 0) ↔ 0 < N := by omega
  refine ⟨?_, ?_, ?_, natNumberToString_of_lt N, nearestDouble_of_lt⟩
  · by_cases h : 0 < N <;> simp [pendingCountDone, pendingCountSuccess, hel, hpos, h]
  · intro h0
    subst h0
    simp [pendingCountDone, pendingCountSuccess, hel]
  · intro h
    simp [pendingCountDone, pendingCountSuccess, hel, hpos, h,
      numberToString_of_number N hnum]

theorem pendingCount_success_renders_witness :
    (pendingCountDone (FetchOutcome.json (3 : Nat))
        (Page.initial (some ⟨"7", "none"⟩) none none)).pendingCount = (3 : Nat) ∧
    (pendingCountDone (FetchOutcome.json (3 : Nat))
        (Page.initial (some ⟨"7", "none"⟩) none none)).pendingElem = some ⟨"3", "inline"⟩ :=
  have h := pendingCount_success_renders (Page.initial (some ⟨"7", "none"⟩) none none)
    ⟨"7", "none"⟩ 3 rfl (by decide)
  ⟨h.1, (h.2.2.1 (by decide)).trans (by decide)⟩

/-- C2, as stated, fails: `2 ^ 63` and `10 ^ 21` are Numbers, and for the
responses `{count: 9223372036854775808}` and `{count: 1e21}` the success
callback of `updateActiveCount` sets the text of the element to
`9223372036854776000` and to `1e+21`, neither of which is the numeral of the
count. -/
theorem activeCount_text_not_numeral :
    nearestDouble 9223372036854775808 = some 9223372036854775808 ∧
    (activeCountDone (FetchOutcome.json 9223372036854775808)
        (Page.initial none (some ⟨"", ""⟩) none)).activeElem =
      some ⟨"9223372036854776000", ""⟩ ∧
    toString (9223372036854775808 : Nat) ≠ "9223372036854776000" ∧
    nearestDouble 1000000000000000000000 = some 1000000000000000000000 ∧
    (activeCountDone (FetchOutcome.json 1000000000000000000000)
        (Page.initial none (some ⟨"", ""⟩) none)).activeElem = some ⟨"1e+21", ""⟩ ∧
    toString (1000000000000000000000 : Nat) ≠ "1e+21" := by
  decide

/-- C2, amended: with the `active-count` element present, for a response
`{count: N}` whose `N` is a natural number (zero included) that is a Number (a
double stands for it exactly, as for every `N` below `2 ^ 53`), the success
callback of `updateActiveCount` sets the element's text to Number-to-String of
`N`, which is the decimal numeral of `N` when `N` is below `2 ^ 53`, and leaves
its display as it was. -/
theorem activeCount_success_renders (s : Page) (el : Element) (N : Nat)
    (hel : s.activeElem = some el) (hnum : nearestDouble N = some N) :
    (activeCountDone (FetchOutcome.json N) s).activeElem =
      some { textContent := natNumberToString N, display := el.display } ∧
    (N < 2 ^ 53 → natNumberToString N = toString N) ∧
    (∀ M : Nat, M < 2 ^ 53 → nearestDouble M = some M) := by
  refine ⟨?_, natNumberToString_of_lt N, nearestDouble_of_lt⟩
  simp [activeCountDone, activeCountSuccess, hel, numberToString_of_number N hnum]

theorem activeCount_success_renders_witness :
    (activeCountDone (FetchOutcome.json (0 : Nat))
        (Page.initial none (some ⟨"5", "inline"⟩) none)).activeElem = some ⟨"0", "inline"⟩ :=
  ((activeCount_success_renders (Page.initial none (some ⟨"5", "inline"⟩) none)
    ⟨"5", "inline"⟩ 0 rfl (by decide)).1).trans (by decide)

/-! ## Counter refresh: several completions in a row -/

theorem applyPending_snoc (rs : List Int) (c : Int) (s : Page) :
    applyPending (rs ++ [c]) s = pendingCountSuccess c (applyPending rs s) := by
  simp [applyPending, List.foldl_append, pendingCountDone]

theorem applyActive_snoc (rs : List Int) (c : Int) (s : Page) :
    applyActive (rs ++ [c]) s = activeCountSuccess c (applyActive rs s) := by
  simp [applyActive, List.foldl_append, activeCountDone]

theorem applyPending_isSome (rs : List Int) (s : Page) :
    (applyPending rs s).pendingElem.isSome = s.pendingElem.isSome := by
  induction rs using List.reverseRecOn with
  | nil => rfl
  | append_singleton rs c ih =>
    rw [applyPending_snoc, pendingCountSuccess_elem, Option.isSome_map', ih]

theorem applyActive_display (rs : List Int) (s : Page) :
    (applyActive rs s).activeElem.map Element.display = s.activeElem.map Element.display := by
  induction rs using List.reverseRecOn with
  | nil => rfl
  | append_singleton rs c ih =>
    rw [applyActive_snoc, activeCountSuccess_elem, ← ih]
    cases (applyActive rs s).activeElem <;> rfl

theorem map_const_of_isSome_eq {α β : Type} (a b : Option α) (v : β)
    (h : a.isSome = b.isSome) : a.map (fun _ => v) = b.map (fun _ => v) := by
  cases a <;> cases b <;> simp_all

/-- C4: for a non-empty sequence of successful responses applied in completion
order, what either counter shows afterwards (hidden, or shown with which text)
is what it would show had only the last response been applied; for the pending
counter the stored `pendingCount` agrees as well. -/
theorem last_response_wins (rs : List Int) (hne : rs ≠ []) (s : Page) :
    (applyPending rs s).pendingElem.map Element.shown =
      (pendingCountDone (FetchOutcome.json (rs.getLast hne)) s).pendingElem.map Element.shown ∧
    (s.pendingElem.isSome = true → (applyPending rs s).pendingCount = rs.getLast hne) ∧
    (applyActive rs s).activeElem.map Element.shown =
      (activeCountDone (FetchOutcome.json (rs.getLast hne)) s).activeElem.map Element.shown := by
  obtain ⟨init, c, rfl⟩ : ∃ init c, rs = init ++ [c] :=
    ⟨rs.dropLast, rs.getLast hne, (List.dropLast_append_getLast hne).symm⟩
  simp only [List.getLast_append_singleton, pendingCountDone, activeCountDone]
  refine ⟨?_, ?_, ?_⟩
  · rw [applyPending_snoc, pendingCountSuccess_shown, pendingCountSuccess_shown]
    exact map_const_of_isSome_eq _ _ _ (applyPending_isSome init s)
  · intro hs
    have h := applyPending_isSome init s
    rw [hs] at h
    obtain ⟨el, hel⟩ := Option.isSome_iff_exists.mp h
    rw [applyPending_snoc]
    unfold pendingCountSuccess
    rw [hel]
    by_cases hc : c > 0 <;> simp [hc]
  · rw [applyActive_snoc, activeCountSuccess_elem, activeCountSuccess_elem]
    have h := applyActive_display init s
    cases h1 : (applyActive init s).activeElem <;> cases h2 : s.activeElem <;>
      simp_all [Element.shown]

theorem last_response_wins_witness :
    (applyPending [4, 0, 2] (Page.initial (some ⟨"", ""⟩) none none)).pendingElem.map
        Element.shown = some (some "2") ∧
    (applyPending [2, 4, 0] (Page.initial (some ⟨"", ""⟩) none none)).pendingElem.map
        Element.shown = some none :=
  ⟨(last_response_wins [4, 0, 2] (by decide) (Page.initial (some ⟨"", ""⟩) none none)).1.trans
      (by decide),
   (last_response_wins [2, 4, 0] (by decide) (Page.initial (some ⟨"", ""⟩) none none)).1.trans
      (by decide)⟩

/-- C7: when a refresh fails (the fetch rejects, or the response cannot be
read), the completion of `updatePendingCount` and of `updateActiveCount` only
writes a line to the console: the stored `pendingCount`, both counter elements
(text and display) and everything else on the page are what they were, and the
completion returns a page, that is, nothing is thrown to the caller. -/
theorem refresh_failure_keeps_counter (s : Page) (o : FetchOutcome)
    (hfail : o = FetchOutcome.rejected ∨ o = FetchOutcome.unreadable) :
    pendingCountDone o s =
      { s with console := s.console ++ ["Error updating pending count:"] } ∧
    activeCountDone o s =
      { s with console := s.console ++ ["Error updating active count:"] } ∧
    (pendingCountDone o s).pendingCount = s.pendingCount ∧
    (pendingCountDone o s).pendingElem = s.pendingElem ∧
    (activeCountDone o s).activeElem = s.activeElem := by
  rcases hfail with rfl | rfl <;> exact ⟨rfl, rfl, rfl, rfl, rfl⟩

theorem refresh_failure_keeps_counter_witness :
    (pendingCountDone FetchOutcome.rejected
        (pendingCountDone (FetchOutcome.json 3)
          (Page.initial (some ⟨"", ""⟩) none none))).pendingElem = some ⟨"3", "inline"⟩ ∧
    (pendingCountDone FetchOutcome.rejected
        (pendingCountDone (FetchOutcome.json 3)
          (Page.initial (some ⟨"", ""⟩) none none))).pendingCount = 3 :=
  have h := refresh_failure_keeps_counter
    (pendingCountDone (FetchOutcome.json 3) (Page.initial (some ⟨"", ""⟩) none none))
    FetchOutcome.rejected (Or.inl rfl)
  ⟨h.2.2.2.1.trans (by decide), h.2.2.1.trans (by decide)⟩

/-! ## Socket events -/

theorem showNotification_counter (message : String) (type : Option String) (s : Page) :
    (showNotification message type s).pendingCount = s.pendingCount ∧
    (showNotification message type s).pendingElem = s.pendingElem ∧
    (showNotification message type s).activeElem = s.activeElem ∧
    (showNotification message type s).fetches = s.fetches :=
  ⟨rfl, rfl, rfl, rfl⟩

/-- C6: the handler of a reactive trigger event (`new_swap_request`,
`swap_accepted`, `swap_rejected`) issues exactly one request, to
`/api/swaps/pending-count`, and leaves the stored `pendingCount` and both
counter elements as they were; the counter is written only when the request
completes. -/
theorem reactive_trigger_issues_one_refresh (e : SocketEvent) (s : Page)
    (htrig : e.isReactiveTrigger = true) :
    (onSocketEvent e s).fetches = s.fetches ++ ["/api/swaps/pending-count"] ∧
    (onSocketEvent e s).pendingCount = s.pendingCount ∧
    (onSocketEvent e s).pendingElem = s.pendingElem ∧
    (onSocketEvent e s).activeElem = s.activeElem := by
  cases e <;> first
    | exact ⟨rfl, rfl, rfl, rfl⟩
    | simp [SocketEvent.isReactiveTrigger] at htrig

theorem reactive_trigger_issues_one_refresh_witness :
    (onSocketEvent SocketEvent.new_swap_request
        (Page.initial (some ⟨"2", "inline"⟩) none none)).fetches =
      ["/api/swaps/pending-count"] ∧
    (onSocketEvent SocketEvent.new_swap_request
        (Page.initial (some ⟨"2", "inline"⟩) none none)).pendingElem =
      some ⟨"2", "inline"⟩ :=
  have h := reactive_trigger_issues_one_refresh SocketEvent.new_swap_request
    (Page.initial (some ⟨"2", "inline"⟩) none none) rfl
  ⟨h.1, h.2.2.1⟩

/-- No socket event handler writes the counter state, whatever the event. -/
theorem onSocketEvent_counter (e : SocketEvent) (s : Page) :
    (onSocketEvent e s).pendingCount = s.pendingCount ∧
    (onSocketEvent e s).pendingElem = s.pendingElem ∧
    (onSocketEvent e s).activeElem = s.activeElem := by
  cases e <;> exact ⟨rfl, rfl, rfl⟩

/-! ## Notifications: the severity -/

/-- C3, as stated, fails: the severity `error` is outside the enumerated set,
and `showNotification('Saved', 'error')` gives the alert the class
`alert-error`; `alert-info` is not among its classes. -/
theorem showNotification_unknown_severity_not_info :
    "error" ∉ severities ∧
    (showNotification "Saved" (some "error") (Page.initial none none none)).body.map
        Node.className = ["alert alert-error alert-dismissible fade show position-fixed"] ∧
    "alert-error" ∈ classNames "alert alert-error alert-dismissible fade show position-fixed" ∧
    "alert-info" ∉ classNames "alert alert-error alert-dismissible fade show position-fixed" := by
  decide

/-- C3, amended: `showNotification` appends exactly one alert to the body and
returns (nothing is thrown). With the severity omitted the alert has the class
`alert-info`. A severity that is passed is used as it is: the class attribute
is `alert alert-<type> alert-dismissible fade show position-fixed`, so each
severity of the enumerated set gives `alert-<severity>`, and a string outside
the set is not replaced by `info`. -/
theorem showNotification_severity (message : String) (type : Option String) (s : Page) :
    (showNotification message type s).body.length = s.body.length + 1 ∧
    (showNotification message type s).body.map Node.className =
      s.body.map Node.className ++ [alertClassName (type.getD "info")] ∧
    (showNotification message none s).body.map Node.className =
      s.body.map Node.className ++ [alertClassName "info"] ∧
    "alert-info" ∈ classNames (alertClassName "info") ∧
    (∀ t ∈ severities, ("alert-" ++ t) ∈ classNames (alertClassName t)) ∧
    (∀ t : String, alertClassName t =
      "alert alert-" ++ t ++ " alert-dismissible fade show position-fixed") := by
  refine ⟨by simp [showNotification], by simp [showNotification, createAlert],
    by simp [showNotification, createAlert], by decide, by decide, fun _ => rfl⟩

/-! ## Platform broadcasts -/

theorem showPlatformMessages_snoc (f : String → String) (msgs : List PlatformMessage)
    (d : PlatformMessage) (s : Page) :
    showPlatformMessages f (msgs ++ [d]) s =
      showPlatformMessage f d (showPlatformMessages f msgs s) := by
  simp [showPlatformMessages, List.foldl_append]

/-- C5: while the flash container exists, showing the broadcasts `msgs` in
their order of arrival leaves in the container the markup of the broadcasts in
reverse order of arrival, followed by the children the container had before,
in their previous order. -/
theorem platform_messages_prepend (f : String → String) (msgs : List PlatformMessage)
    (s : Page) (children : List String) (hc : s.flashContainer = some children) :
    (showPlatformMessages f msgs s).flashContainer =
      some ((msgs.map (alertHtml f)).reverse ++ children) := by
  induction msgs using List.reverseRecOn with
  | nil => simpa [showPlatformMessages] using hc
  | append_singleton msgs d ih =>
    rw [showPlatformMessages_snoc]
    unfold showPlatformMessage
    rw [ih]
    simp [insertAfterBegin]

theorem platform_messages_prepend_witness :
    (showPlatformMessages id [⟨"info", "A", "first", "t1"⟩, ⟨"info", "B", "second", "t2"⟩]
        (Page.initial none none (some ["<p>flash</p>"]))).flashContainer =
      some [alertHtml id ⟨"info", "B", "second", "t2"⟩,
            alertHtml id ⟨"info", "A", "first", "t1"⟩, "<p>flash</p>"] :=
  platform_messages_prepend id [⟨"info", "A", "first", "t1"⟩, ⟨"info", "B", "second", "t2"⟩]
    (Page.initial none none (some ["<p>flash</p>"])) ["<p>flash</p>"] rfl

/-! ## `truncateText` -/

/-- C10: for a string `text` and a natural number `maxLength`,
`truncateText(text, maxLength)` is `text` itself when its length is at most
`maxLength`, and otherwise the first `maxLength` code units of `text` followed
by `...`; so the result has length at most `maxLength + 3` and starts with the
first `min(length, maxLength)` code units of `text`. -/
theorem truncateText_spec (text : JSString) (maxLength : Nat) :
    (text.length ≤ maxLength → truncateText text maxLength = text) ∧
    (maxLength < text.length →
      truncateText text maxLength = text.take maxLength ++ [46, 46, 46]) ∧
    (truncateText text maxLength).length ≤ maxLength + 3 ∧
    text.take (min text.length maxLength) <+: truncateText text maxLength := by
  by_cases h : text.length ≤ maxLength
  · have hi : (text.length : Int) ≤ (maxLength : Int) := by exact_mod_cast h
    have ht : truncateText text maxLength = text := by simp [truncateText, hi]
    refine ⟨fun _ => ht, fun h2 => absurd h (by omega), ?_, ?_⟩
    · rw [ht]; omega
    · rw [ht, Nat.min_eq_left h, List.take_length]
  · have hi : ¬ (text.length : Int) ≤ (maxLength : Int) := by exact_mod_cast h
    have ht : truncateText text maxLength = text.take maxLength ++ [46, 46, 46] := by
      simp [truncateText, hi, substring0, ellipsis]
    refine ⟨fun h1 => absurd h1 h, fun _ => ht, ?_, ?_⟩
    · rw [ht]; simp
    · rw [ht, Nat.min_eq_right (by omega)]
      exact List.prefix_append _ _

theorem truncateText_spec_witness :
    truncateText [104, 101, 108, 108, 111] (3 : Nat) = [104, 101, 108, 46, 46, 46] ∧
    truncateText [104, 105] (3 : Nat) = [104, 105] :=
  ⟨((truncateText_spec [104, 101, 108, 108, 111] 3).2.1 (by decide)).trans (by decide),
   (truncateText_spec [104, 105] 3).1 (by decide)⟩

/-! ## Regular expressions: the matcher decides the denotation -/

namespace Rx

theorem nullable_iff (r : Rx) : r.nullable = true ↔ r.Matches [] := by
  induction r with
  | nothing => simp [nullable, Matches]
  | empty => simp [nullable, Matches]
  | cls p => simp [nullable, Matches]
  | alt r s ihr ihs => simp [nullable, Matches, ihr, ihs]
  | seq r s ihr ihs =>
    simp only [nullable, Matches, Bool.and_eq_true, ihr, ihs]
    constructor
    · rintro ⟨h1, h2⟩
      exact ⟨[], [], rfl, h1, h2⟩
    · rintro ⟨u, v, huv, h1, h2⟩
      obtain ⟨rfl, rfl⟩ := List.append_eq_nil.mp huv.symm
      exact ⟨h1, h2⟩
  | star r _ =>
    simp only [nullable, Matches, true_iff]
    exact ⟨[], rfl, by simp⟩

theorem star_cons_iff (r : Rx) (a : Nat) (w : JSString) :
    (star r).Matches (a :: w) ↔
      ∃ u v, w = u ++ v ∧ r.Matches (a :: u) ∧ (star r).Matches v := by
  constructor
  · rintro ⟨L, hL, hall⟩
    induction L with
    | nil => simp at hL
    | cons x L ih =>
      cases x with
      | nil =>
        exact ih (by simpa using hL) (fun u hu => hall u (List.mem_cons_of_mem _ hu))
      | cons b x =>
        simp only [List.flatten_cons, List.cons_append, List.cons.injEq] at hL
        obtain ⟨rfl, rfl⟩ := hL
        exact ⟨x, L.flatten, rfl, hall _ (List.mem_cons_self _ _),
          L, rfl, fun u hu => hall u (List.mem_cons_of_mem _ hu)⟩
  · rintro ⟨u, v, rfl, hu, L, rfl, hall⟩
    refine ⟨(a :: u) :: L, by simp, ?_⟩
    intro x hx
    rcases List.mem_cons.mp hx with rfl | hx
    · exact hu
    · exact hall x hx

theorem deriv_iff (r : Rx) (a : Nat) (w : JSString) :
    (r.deriv a).Matches w ↔ r.Matches (a :: w) := by
  induction r generalizing w with
  | nothing => simp [deriv, Matches]
  | empty => simp [deriv, Matches]
  | cls p =>
    by_cases hp : p a = true
    · simp only [deriv, hp, if_true, Matches]
      constructor
      · rintro rfl
        exact ⟨a, hp, rfl⟩
      · rintro ⟨b, _, hb⟩
        simp only [List.cons.injEq] at hb
        exact hb.2
    · simp only [deriv, hp, Matches, false_iff]
      rintro ⟨b, hb, hw⟩
      simp only [List.cons.injEq] at hw
      exact hp (hw.1 ▸ hb)
  | alt r s ihr ihs => simp [deriv, Matches, ihr, ihs]
  | seq r s ihr ihs =>
    have key : (seq r s).Matches (a :: w) ↔
        (r.Matches [] ∧ s.Matches (a :: w)) ∨
          ∃ u v, w = u ++ v ∧ r.Matches (a :: u) ∧ s.Matches v := by
      constructor
      · rintro ⟨u, v, huv, hu, hv⟩
        rcases List.cons_eq_append_iff.mp huv with ⟨rfl, rfl⟩ | ⟨u', rfl, rfl⟩
        · exact Or.inl ⟨hu, hv⟩
        · exact Or.inr ⟨u', v, rfl, hu, hv⟩
      · rintro (⟨h1, h2⟩ | ⟨u, v, rfl, hu, hv⟩)
        · exact ⟨[], a :: w, rfl, h1, h2⟩
        · exact ⟨a :: u, v, rfl, hu, hv⟩
    rw [key]
    by_cases hn : r.nullable = true
    · have hn2 := (nullable_iff r).mp hn
      simp only [deriv, hn, if_true, Matches, ihr, ihs, hn2, true_and]
      exact or_comm
    · have hn2 : ¬ r.Matches [] := fun h => hn ((nullable_iff r).mpr h)
      simp only [deriv, hn, Matches, ihr, hn2, false_and, false_or]
  | star r ih =>
    rw [star_cons_iff]
    simp only [deriv]
    constructor
    · rintro ⟨u, v, rfl, hu, hv⟩
      exact ⟨u, v, rfl, (ih u).mp hu, hv⟩
    · rintro ⟨u, v, rfl, hu, hv⟩
      exact ⟨u, v, rfl, (ih u).mpr hu, hv⟩

theorem test_iff (r : Rx) (w : JSString) : r.test w = true ↔ r.Matches w := by
  induction w generalizing r with
  | nil => exact nullable_iff r
  | cons a w ih =>
    have h := ih (r.deriv a)
    simp only [test, List.foldl_cons] at h ⊢
    rw [h, deriv_iff]

theorem star_cls_iff (p : Nat → Bool) (w : JSString) :
    (star (cls p)).Matches w ↔ ∀ c ∈ w, p c = true := by
  induction w with
  | nil =>
    simp only [List.not_mem_nil, false_implies, implies_true, iff_true]
    exact ⟨[], rfl, by simp⟩
  | cons a w ih =>
    rw [star_cons_iff]
    constructor
    · rintro ⟨u, v, rfl, ⟨b, hb, hab⟩, hv⟩
      simp only [List.cons.injEq] at hab
      obtain ⟨rfl, rfl⟩ := hab
      intro c hc
      rcases List.mem_cons.mp hc with rfl | hc
      · exact hb
      · exact ih.mp hv c (by simpa using hc)
    · intro h
      exact ⟨[], w, rfl, ⟨a, h a (List.mem_cons_self _ _), rfl⟩,
        ih.mpr (fun c hc => h c (List.mem_cons_of_mem _ hc))⟩

theorem plus_cls_iff (p : Nat → Bool) (w : JSString) :
    (plus (cls p)).Matches w ↔ w ≠ [] ∧ ∀ c ∈ w, p c = true := by
  constructor
  · rintro ⟨u, v, rfl, ⟨a, ha, rfl⟩, hv⟩
    refine ⟨by simp, ?_⟩
    intro c hc
    rcases List.mem_cons.mp hc with rfl | hc
    · exact ha
    · exact (star_cls_iff p v).mp hv c hc
  · rintro ⟨hne, h⟩
    cases w with
    | nil => exact absurd rfl hne
    | cons a w =>
      exact ⟨[a], w, rfl, ⟨a, h a (List.mem_cons_self _ _), rfl⟩,
        (star_cls_iff p w).mpr (fun c hc => h c (List.mem_cons_of_mem _ hc))⟩

end Rx

/-! ## `validateEmail` -/

theorem notSpaceAt_iff (c : Nat) :
    notSpaceAt c = true ↔ isWhiteSpace c = false ∧ c ≠ atSign := by
  simp [notSpaceAt]

theorem emailRegex_matches_iff (s : JSString) :
    emailRegex.Matches s ↔
      ∃ l d1 d2, s = l ++ atSign :: (d1 ++ dot :: d2) ∧
        (l ≠ [] ∧ ∀ c ∈ l, notSpaceAt c = true) ∧
        (d1 ≠ [] ∧ ∀ c ∈ d1, notSpaceAt c = true) ∧
        (d2 ≠ [] ∧ ∀ c ∈ d2, notSpaceAt c = true) := by
  unfold emailRegex
  constructor
  · rintro ⟨l, _, rfl, hl, _, _, rfl, ⟨a, ha, rfl⟩, d1, _, rfl, hd1, _, d2, rfl,
      ⟨b, hb, rfl⟩, hd2⟩
    have ha2 : a = atSign := by simpa using ha
    have hb2 : b = dot := by simpa using hb
    subst ha2 hb2
    exact ⟨l, d1, d2, by simp, (Rx.plus_cls_iff _ _).mp hl, (Rx.plus_cls_iff _ _).mp hd1,
      (Rx.plus_cls_iff _ _).mp hd2⟩
  · rintro ⟨l, d1, d2, rfl, hl, hd1, hd2⟩
    exact ⟨l, _, rfl, (Rx.plus_cls_iff _ _).mpr hl, [atSign], _, rfl,
      ⟨atSign, by simp, rfl⟩, d1, _, rfl, (Rx.plus_cls_iff _ _).mpr hd1,
      [dot], d2, rfl, ⟨dot, by simp, rfl⟩, (Rx.plus_cls_iff _ _).mpr hd2⟩

theorem localPart_append (l d : JSString) (hl : atSign ∉ l) :
    localPart (l ++ atSign :: d) = l := by
  have h : ∀ a ∈ l, (a != atSign) = true := by
    intro a ha
    simp only [bne_iff_ne, ne_eq]
    rintro rfl
    exact hl ha
  simp [localPart, List.takeWhile_append_of_pos h, List.takeWhile_cons]

theorem domainPart_append (l d : JSString) (hl : atSign ∉ l) :
    domainPart (l ++ atSign :: d) = d := by
  have h : ∀ a ∈ l, (a != atSign) = true := by
    intro a ha
    simp only [bne_iff_ne, ne_eq]
    rintro rfl
    exact hl ha
  simp [domainPart, List.dropWhile_append_of_pos h, List.dropWhile_cons]

theorem split_at_first_at (s : JSString) (h : atSign ∈ s) :
    s = localPart s ++ atSign :: domainPart s ∧ atSign ∉ localPart s := by
  have hs := List.takeWhile_append_dropWhile (fun c => c != atSign) s
  have hnot : atSign ∉ localPart s := by
    intro hmem
    have := List.mem_takeWhile_imp hmem
    simp at this
  cases hd : s.dropWhile (fun c => c != atSign) with
  | nil =>
    have hall := List.dropWhile_eq_nil_iff.mp hd atSign h
    simp at hall
  | cons a d =>
    have hne : s.dropWhile (fun c => c != atSign) ≠ [] := by simp [hd]
    have ha := List.head_dropWhile_not (fun c => c != atSign) s hne
    simp only [hd, List.head_cons, bne_eq_false_iff_eq] at ha
    subst ha
    refine ⟨?_, hnot⟩
    have hdom : domainPart s = d := by simp [domainPart, hd]
    rw [hdom]
    unfold localPart
    rw [← hd]
    exact hs.symm

theorem emailShape_of_parts (l d1 d2 : JSString)
    (hl : l ≠ [] ∧ ∀ c ∈ l, notSpaceAt c = true)
    (hd1 : d1 ≠ [] ∧ ∀ c ∈ d1, notSpaceAt c = true)
    (hd2 : d2 ≠ [] ∧ ∀ c ∈ d2, notSpaceAt c = true) :
    EmailShape (l ++ atSign :: (d1 ++ dot :: d2)) := by
  have hla : atSign ∉ l := fun h => ((notSpaceAt_iff _).mp (hl.2 _ h)).2 rfl
  have hd1a : atSign ∉ d1 := fun h => ((notSpaceAt_iff _).mp (hd1.2 _ h)).2 rfl
  have hd2a : atSign ∉ d2 := fun h => ((notSpaceAt_iff _).mp (hd2.2 _ h)).2 rfl
  refine ⟨?_, ?_, ?_, ?_⟩
  · intro c hc
    simp only [List.mem_append, List.mem_cons] at hc
    rcases hc with hc | rfl | hc | rfl | hc
    · exact ((notSpaceAt_iff _).mp (hl.2 _ hc)).1
    · decide
    · exact ((notSpaceAt_iff _).mp (hd1.2 _ hc)).1
    · decide
    · exact ((notSpaceAt_iff _).mp (hd2.2 _ hc)).1
  · have h1 := List.count_eq_zero.mpr hla
    have h2 := List.count_eq_zero.mpr hd1a
    have h3 := List.count_eq_zero.mpr hd2a
    have h4 : (dot == atSign) = false := by decide
    simp [List.count_append, List.count_cons, h1, h2, h3, h4]
  · rw [localPart_append _ _ hla]
    exact List.length_pos.mpr hl.1
  · rw [domainPart_append _ _ hla]
    refine ⟨d1.length, List.length_pos.mpr hd1.1, ?_, ?_⟩
    · have := List.length_pos.mpr hd2.1
      simp only [List.length_append, List.length_cons]
      omega
    · rw [List.getElem?_append_right (Nat.le_refl _)]
      simp

theorem parts_of_emailShape (s : JSString) (h : EmailShape s) :
    ∃ l d1 d2, s = l ++ atSign :: (d1 ++ dot :: d2) ∧
      (l ≠ [] ∧ ∀ c ∈ l, notSpaceAt c = true) ∧
      (d1 ≠ [] ∧ ∀ c ∈ d1, notSpaceAt c = true) ∧
      (d2 ≠ [] ∧ ∀ c ∈ d2, notSpaceAt c = true) := by
  obtain ⟨hws, hcount, hloc, i, hi0, hi1, hi⟩ := h
  have hmem : atSign ∈ s := by
    by_contra hn
    rw [List.count_eq_zero.mpr hn] at hcount
    exact absurd hcount (by decide)
  obtain ⟨hsplit, hla⟩ := split_at_first_at s hmem
  have hda : atSign ∉ domainPart s := by
    intro hd
    have hc := hcount
    rw [hsplit, List.count_append, List.count_cons_self, List.count_eq_zero.mpr hla] at hc
    have : 0 < List.count atSign (domainPart s) := List.count_pos_iff.mpr hd
    omega
  obtain ⟨hlt, hget⟩ := List.getElem?_eq_some.mp hi
  have hdsplit : domainPart s =
      (domainPart s).take i ++ dot :: (domainPart s).drop (i + 1) := by
    conv_lhs => rw [← List.take_append_drop i (domainPart s)]
    rw [List.drop_eq_getElem_cons hlt, hget]
  have hns : ∀ c ∈ s, c ≠ atSign → notSpaceAt c = true := fun c hc hne =>
    (notSpaceAt_iff c).mpr ⟨hws c hc, hne⟩
  have hsub_l : ∀ c ∈ localPart s, c ∈ s := fun c hc => by
    rw [hsplit]; exact List.mem_append_left _ hc
  have hsub_d : ∀ c ∈ domainPart s, c ∈ s := fun c hc => by
    rw [hsplit]; exact List.mem_append_right _ (List.mem_cons_of_mem _ hc)
  refine ⟨localPart s, (domainPart s).take i, (domainPart s).drop (i + 1), ?_, ⟨?_, ?_⟩,
    ⟨?_, ?_⟩, ⟨?_, ?_⟩⟩
  · rw [← hdsplit]; exact hsplit
  · exact List.ne_nil_of_length_pos hloc
  · intro c hc
    exact hns c (hsub_l c hc) (fun h => hla (h ▸ hc))
  · apply List.ne_nil_of_length_pos
    rw [List.length_take]
    omega
  · intro c hc
    have hcd := List.mem_of_mem_take hc
    exact hns c (hsub_d c hcd) (fun h => hda (h ▸ hcd))
  · apply List.ne_nil_of_length_pos
    rw [List.length_drop]
    omega
  · intro c hc
    have hcd := List.mem_of_mem_drop hc
    exact hns c (hsub_d c hcd) (fun h => hda (h ▸ hcd))

/-- Evaluations of `validateEmail`: `a@b.c` is accepted; `a@b`, `a@.c`,
`a@b.`, `@b.c`, `a@@b.c` and `a @b.c` are rejected; `a@b.c.d` is accepted. -/
theorem validateEmail_examples :
    (validateEmail [97, 64, 98, 46, 99] none).1 = true ∧
    (validateEmail [97, 64, 98] none).1 = false ∧
    (validateEmail [97, 64, 46, 99] none).1 = false ∧
    (validateEmail [97, 64, 98, 46] none).1 = false ∧
    (validateEmail [64, 98, 46, 99] none).1 = false ∧
    (validateEmail [97, 64, 64, 98, 46, 99] none).1 = false ∧
    (validateEmail [97, 32, 64, 98, 46, 99] none).1 = false ∧
    (validateEmail [97, 64, 98, 46, 99, 46, 100] none).1 = true ∧
    validateEmail [97, 64, 98, 46, 99] (some ⟨["form-control", "is-invalid"]⟩) =
      (true, some ⟨["form-control", "is-valid"]⟩) := by
  decide

/-- C9: `validateEmail(s, el)` returns `true` exactly when `s` has no white
space character, has exactly one `@`, has at least one character before it,
and the part after it has a `.` that is neither its first nor its last
character; the returned value is the same whether or not an input element is
passed. -/
theorem validateEmail_iff (s : JSString) (el : Option InputElement) :
    ((validateEmail s el).1 = true ↔ EmailShape s) ∧
    (validateEmail s el).1 = (validateEmail s none).1 := by
  have hfst : (validateEmail s el).1 = emailRegex.test s := by
    unfold validateEmail
    cases el with
    | none => rfl
    | some e => by_cases h : emailRegex.test s = true <;> simp [h]
  refine ⟨?_, hfst⟩
  rw [hfst, Rx.test_iff, emailRegex_matches_iff]
  constructor
  · rintro ⟨l, d1, d2, rfl, hl, hd1, hd2⟩
    exact emailShape_of_parts l d1 d2 hl hd1 hd2
  · exact parts_of_emailShape s

/-! ## Notifications: how many are on the page -/

theorem foldl_fireTimer (due : List Timer) (s : Page) :
    due.foldl fireTimer s =
      { s with body := s.body.filter (fun n => !(due.any (fun tm => n.id == tm.target))) } := by
  induction due generalizing s with
  | nil => simp
  | cons t due ih =>
    rw [List.foldl_cons, ih]
    simp only [fireTimer, List.filter_filter, List.any_cons, Bool.not_or]
    congr 2
    funext n
    rw [Bool.and_comm]
    rfl

theorem advance_body (t : Nat) (s : Page) :
    (advance t s).body = s.body.filter (fun n =>
      !((s.timers.filter (fun tm => tm.deadline ≤ t)).any (fun tm => n.id == tm.target))) := by
  simp [advance, foldl_fireTimer]

theorem advance_timers (t : Nat) (s : Page) :
    (advance t s).timers = s.timers.filter (fun tm => t < tm.deadline) := by
  simp [advance, foldl_fireTimer]

theorem advance_now (t : Nat) (s : Page) : (advance t s).now = max s.now t := by
  simp [advance, foldl_fireTimer]

theorem advance_nextId (t : Nat) (s : Page) : (advance t s).nextId = s.nextId := by
  simp [advance, foldl_fireTimer]

theorem filter_alerts_of_timers (keep : Nat → Bool) (q : Timer → Bool) :
    ∀ (timers : List Timer) (alerts : List Node),
      alerts.map Node.id = timers.map Timer.target →
      (∀ tm ∈ timers, keep tm.target = q tm) →
      (alerts.filter (fun n => keep n.id)).map Node.id = (timers.filter q).map Timer.target := by
  intro timers
  induction timers with
  | nil =>
    intro alerts h _
    have : alerts = [] := by simpa using h
    subst this
    rfl
  | cons tm timers ih =>
    intro alerts h hk
    cases alerts with
    | nil => simp at h
    | cons n alerts =>
      simp only [List.map_cons, List.cons.injEq] at h
      have h1 := hk tm (List.mem_cons_self _ _)
      have h2 := ih alerts h.2 (fun x hx => hk x (List.mem_cons_of_mem _ hx))
      have h3 : keep n.id = q tm := by rw [h.1]; exact h1
      cases hq : q tm
      · rw [hq] at h3
        rw [List.filter_cons, if_neg (by simp [h3]), List.filter_cons, if_neg (by simp [hq])]
        exact h2
      · rw [hq] at h3
        rw [List.filter_cons, if_pos h3, List.filter_cons, if_pos hq, List.map_cons,
          List.map_cons, h2, h.1]

theorem notifyInv_advance {base : List Node} {lo : Nat} {s : Page} {done : List Nat}
    (h : NotifyInv base lo s done) (T : Nat) (hT : s.now ≤ T) :
    NotifyInv base lo (advance T s) done := by
  obtain ⟨alerts, hbody, hids⟩ := h.body_eq
  have hnow : (advance T s).now = T := by rw [advance_now]; exact Nat.max_eq_right hT
  have hkeep : ∀ tm ∈ s.timers,
      (!((s.timers.filter (fun tm => tm.deadline ≤ T)).any
          (fun tm2 => tm.target == tm2.target))) = decide (T < tm.deadline) := by
    intro tm htm
    by_cases hd : T < tm.deadline
    · rw [decide_eq_true hd, Bool.not_eq_true', Bool.eq_false_iff]
      intro hany
      obtain ⟨tm2, hmem, heq⟩ := List.any_eq_true.mp hany
      obtain ⟨hmem2, hdue⟩ := List.mem_filter.mp hmem
      have : tm = tm2 := List.inj_on_of_nodup_map h.target_nodup htm hmem2 (by simpa using heq)
      subst this
      have : tm.deadline ≤ T := by simpa using hdue
      omega
    · rw [decide_eq_false hd, Bool.not_eq_false']
      exact List.any_eq_true.mpr ⟨tm, List.mem_filter.mpr ⟨htm, by simpa using hd⟩, by simp⟩
  refine ⟨⟨alerts.filter (fun n => !((s.timers.filter (fun tm => tm.deadline ≤ T)).any
      (fun tm2 => n.id == tm2.target))), ?_, ?_⟩, h.base_lt, ?_, ?_, ?_, ?_, ?_, ?_⟩
  · rw [advance_body, hbody, List.filter_append]
    congr 1
    rw [List.filter_eq_self]
    intro n hn
    rw [Bool.not_eq_true', Bool.eq_false_iff]
    intro hany
    obtain ⟨tm2, hmem, heq⟩ := List.any_eq_true.mp hany
    have h1 := h.base_lt n hn
    have h2 := h.target_ge tm2 (List.mem_filter.mp hmem).1
    have h3 : n.id = tm2.target := by simpa using heq
    omega
  · rw [advance_timers]
    exact filter_alerts_of_timers
      (fun i => !((s.timers.filter (fun tm => tm.deadline ≤ T)).any
        (fun tm2 => i == tm2.target)))
      (fun tm => decide (T < tm.deadline)) s.timers alerts hids hkeep
  · intro tm htm
    rw [advance_timers] at htm
    exact h.target_ge tm (List.mem_filter.mp htm).1
  · intro tm htm
    rw [advance_timers] at htm
    rw [advance_nextId]
    exact h.target_lt tm (List.mem_filter.mp htm).1
  · rw [advance_nextId]
    exact h.lo_le
  · rw [advance_timers]
    exact List.Nodup.sublist ((List.filter_sublist _).map _) h.target_nodup
  · rw [advance_timers, hnow]
    have e1 : (s.timers.filter (fun tm => decide (T < tm.deadline))).map Timer.deadline =
        (s.timers.map Timer.deadline).filter (fun d => decide (T < d)) := by
      rw [List.filter_map]
      rfl
    rw [e1, h.deadlines, List.filter_map, List.filter_filter]
    congr 1
    apply List.filter_congr
    intro t ht
    have := h.done_le t ht
    simp only [Function.comp, Bool.and_eq_true, decide_eq_true_eq]
    by_cases hc : T < t + 5000
    · simp [hc]; omega
    · simp [hc]
  · intro t ht
    rw [hnow]
    exact le_trans (h.done_le t ht) hT

theorem notifyInv_show {base : List Node} {lo : Nat} {s : Page} {done : List Nat}
    (h : NotifyInv base lo s done) (message : String) (type : Option String) :
    NotifyInv base lo (showNotification message type s) (done ++ [s.now]) := by
  obtain ⟨alerts, hbody, hids⟩ := h.body_eq
  refine ⟨⟨alerts ++ [createAlert message (type.getD "info") s.nextId], ?_, ?_⟩,
    h.base_lt, ?_, ?_, ?_, ?_, ?_, ?_⟩
  · simp only [showNotification, hbody, List.append_assoc]
  · simp [showNotification, hids, createAlert]
  · intro tm htm
    simp only [showNotification, List.mem_append, List.mem_singleton] at htm
    rcases htm with htm | rfl
    · exact h.target_ge tm htm
    · exact h.lo_le
  · intro tm htm
    simp only [showNotification, List.mem_append, List.mem_singleton] at htm
    rcases htm with htm | rfl
    · exact Nat.lt_succ_of_lt (h.target_lt tm htm)
    · exact Nat.lt_succ_self _
  · exact Nat.le_succ_of_le h.lo_le
  · simp only [showNotification, List.map_append, List.map_cons, List.map_nil]
    refine List.Nodup.append h.target_nodup (List.nodup_singleton _) ?_
    intro x hx hx2
    obtain ⟨tm, htm, rfl⟩ := List.mem_map.mp hx
    have := h.target_lt tm htm
    have : tm.target = s.nextId := by simpa using hx2
    omega
  · simp only [showNotification, List.map_append, List.map_cons, List.map_nil,
      List.filter_append, h.deadlines]
    simp
  · intro t ht
    simp only [List.mem_append, List.mem_singleton] at ht
    rcases ht with ht | rfl
    · exact h.done_le t ht
    · exact Nat.le_refl _

theorem showNotification_now (message : String) (type : Option String) (s : Page) :
    (showNotification message type s).now = s.now := rfl

theorem runCalls_now_le (calls : List NotifyCall) (B : Nat) :
    ∀ s : Page, s.now ≤ B → (∀ c ∈ calls, c.time ≤ B) → (runCalls calls s).now ≤ B := by
  induction calls with
  | nil => intro s hs _; exact hs
  | cons c cs ih =>
    intro s hs hc
    apply ih
    · rw [showNotification_now, advance_now]
      exact Nat.max_le.mpr ⟨hs, hc c (List.mem_cons_self _ _)⟩
    · exact fun x hx => hc x (List.mem_cons_of_mem _ hx)

theorem notifyInv_runCalls {base : List Node} {lo : Nat} (calls : List NotifyCall) :
    ∀ (s : Page) (done : List Nat), NotifyInv base lo s done →
      calls.Pairwise (fun a b => a.time ≤ b.time) →
      (∀ c ∈ calls, s.now ≤ c.time) →
      NotifyInv base lo (runCalls calls s) (done ++ calls.map NotifyCall.time) := by
  induction calls with
  | nil => intro s done h _ _; simpa [runCalls] using h
  | cons c cs ih =>
    intro s done h hsorted hstart
    have hc := hstart c (List.mem_cons_self _ _)
    have h1 := notifyInv_advance h c.time hc
    have hnow : (advance c.time s).now = c.time := by
      rw [advance_now]; exact Nat.max_eq_right hc
    have h2 := notifyInv_show h1 c.message c.type
    rw [hnow] at h2
    obtain ⟨hhead, htail⟩ := List.pairwise_cons.mp hsorted
    have h3 := ih _ _ h2 htail (by
      intro x hx
      rw [showNotification_now, hnow]
      exact hhead x hx)
    simpa [runCalls] using h3

/-- C8: on a page with no timer pending, after calls of `showNotification`
made at non-decreasing times, none of them dismissed by the user, the body at
any time `T` from the last call on is the body from before the calls followed
by as many alerts as there are calls less than five seconds old at `T` (those
with `T < time + 5000`), whatever their severities; every single call appends
exactly one alert, identical calls included. -/
theorem notifications_rendered (calls : List NotifyCall) (s : Page) (T : Nat)
    (htimers : s.timers = []) (hids : ∀ n ∈ s.body, n.id < s.nextId)
    (hsorted : calls.Pairwise (fun a b => a.time ≤ b.time))
    (hstart : ∀ c ∈ calls, s.now ≤ c.time) (hnow : s.now ≤ T)
    (hT : ∀ c ∈ calls, c.time ≤ T) :
    (∃ alerts : List Node, (advance T (runCalls calls s)).body = s.body ++ alerts ∧
      alerts.length = (calls.filter (fun c => T < c.time + 5000)).length) ∧
    (∀ (c : NotifyCall) (st : Page), (showNotification c.message c.type st).body =
      st.body ++ [createAlert c.message (c.type.getD "info") st.nextId]) := by
  refine ⟨?_, fun _ _ => rfl⟩
  have h0 : NotifyInv s.body s.nextId s [] :=
    { body_eq := ⟨[], by simp, by simp [htimers]⟩
      base_lt := hids
      target_ge := by simp [htimers]
      target_lt := by simp [htimers]
      lo_le := Nat.le_refl _
      target_nodup := by simp [htimers]
      deadlines := by simp [htimers]
      done_le := by simp }
  have h1 := notifyInv_runCalls calls s [] h0 hsorted hstart
  have hle := runCalls_now_le calls T s hnow hT
  have h2 := notifyInv_advance h1 T hle
  have hnowT : (advance T (runCalls calls s)).now = T := by
    rw [advance_now]; exact Nat.max_eq_right hle
  obtain ⟨alerts, hbody, hmap⟩ := h2.body_eq
  refine ⟨alerts, hbody, ?_⟩
  have hlen : alerts.length = (advance T (runCalls calls s)).timers.length := by
    have := congrArg List.length hmap
    simpa using this
  have hdl := congrArg List.length h2.deadlines
  rw [hnowT] at hdl
  simp only [List.length_map, List.nil_append] at hdl
  rw [hlen, hdl, List.filter_map, List.length_map]
  rfl

theorem notifications_rendered_witness :
    (advance 7000 (runCalls [⟨0, "Saved", none⟩, ⟨3000, "Saved", none⟩,
        ⟨4000, "Failed", some "danger"⟩] (Page.initial none none none))).body.length = 2 := by
  obtain ⟨alerts, hbody, hlen⟩ := (notifications_rendered
    [⟨0, "Saved", none⟩, ⟨3000, "Saved", none⟩, ⟨4000, "Failed", some "danger"⟩]
    (Page.initial none none none) 7000 rfl (by simp [Page.initial]) (by decide) (by decide)
    (by decide) (by decide)).1
  rw [hbody, List.length_append, hlen]
  decide

end SkillSwap
